import Mathlib

/-
Verification development for the spreadsheet normalization pipeline of
convert_excel_to_sqlite.py.  The Python functions are shallowly embedded:
strings become `List Char`, worksheet cell values become the closed variant
`Cell`, the worksheet grid becomes a total function from (row, column) to
`Cell`, the SQLite store becomes an explicit record of association lists,
and exceptions become `Option`/error flags.
-/

set_option maxRecDepth 4000

/-- Cell values appearing in a worksheet grid: absent (Python `None`), text,
numbers and booleans. -/
inductive Cell where
  | cnone : Cell
  | str : List Char → Cell
  | num : Int → Cell
  | boolean : Bool → Cell
deriving DecidableEq

/-- Model of the Python whitespace test used by `str.strip()`. -/
def pyIsSpace (c : Char) : Bool := c.isWhitespace

/-- Model of Python `str.strip()`: remove leading and trailing whitespace. -/
def pyStrip (l : List Char) : List Char :=
  ((l.dropWhile pyIsSpace).reverse.dropWhile pyIsSpace).reverse

/-- Characters matching the regex class `[0-9a-zA-Z_]`. -/
def isWordChar (c : Char) : Bool := c.isAlphanum || c == '_'

/-- Model of Python `str()` on the cell values the header builder can see. -/
def cellToString : Cell → List Char
  | Cell.cnone => "None".data
  | Cell.str s => s
  | Cell.num n => (toString n).data
  | Cell.boolean true => "True".data
  | Cell.boolean false => "False".data

/-- The Python membership test `value in (None, "")`. -/
def isNoneOrEmpty : Cell → Bool
  | Cell.cnone => true
  | Cell.str s => s.isEmpty
  | _ => false

/-- Helper for `re.sub(r"[^0-9a-zA-Z_]+", "_", text)`: the flag records
whether we are inside a run of non-word characters already replaced. -/
def replaceNonWordRunsGo : List Char → Bool → List Char
  | [], _ => []
  | c :: rest, inRun =>
    if isWordChar c then c :: replaceNonWordRunsGo rest false
    else if inRun then replaceNonWordRunsGo rest true
    else '_' :: replaceNonWordRunsGo rest true

/-- Model of `re.sub(r"[^0-9a-zA-Z_]+", "_", text)`. -/
def replaceNonWordRuns (l : List Char) : List Char := replaceNonWordRunsGo l false

/-- Helper for `re.sub(r"_+", "_", text)`: the flag records whether the
previous character was an underscore. -/
def collapseUnderscoresGo : List Char → Bool → List Char
  | [], _ => []
  | c :: rest, prev =>
    if c == '_' then
      if prev then collapseUnderscoresGo rest true
      else '_' :: collapseUnderscoresGo rest true
    else c :: collapseUnderscoresGo rest false

/-- Model of `re.sub(r"_+", "_", text)`. -/
def collapseUnderscores (l : List Char) : List Char := collapseUnderscoresGo l false

/-- Model of Python `str.strip("_")`. -/
def stripUnderscores (l : List Char) : List Char :=
  ((l.dropWhile (fun c => c == '_')).reverse.dropWhile (fun c => c == '_')).reverse

/-- Model of `sanitise_identifier`: strip and lowercase, replace each maximal
run of characters outside `[0-9a-zA-Z_]` with one underscore, collapse
repeated underscores, strip outer underscores, substitute the fallback when
empty, and prepend an underscore before a leading digit.  Returns `none`
exactly where the Python code would raise an `IndexError` on `text[0]`
(final text empty, possible only when the fallback itself is empty). -/
def sanitise_identifier (text fallback : List Char) : Option (List Char) :=
  let t1 := (pyStrip text).map Char.toLower
  let t2 := stripUnderscores (collapseUnderscores (replaceNonWordRuns t1))
  let t3 := if t2.isEmpty then fallback else t2
  match t3 with
  | [] => none
  | c :: cs => some (if c.isDigit then '_' :: c :: cs else c :: cs)

/-- Decimal digits of a natural number, as Python `str(n)` produces them. -/
def natToChars (n : Nat) : List Char := (toString n).data

/-- Helper for `build_headers`: walks the raw headers carrying the position
`idx` and the Python dict `counts` from sanitized base name to its number of
occurrences so far. -/
def buildHeadersGo (fallback : List Char) :
    List Cell → Nat → (List Char → Nat) → Option (List (List Char))
  | [], _, _ => some []
  | h :: rest, idx, counts =>
    let fb := fallback ++ '_' :: natToChars (idx + 1)
    let headerText := if isNoneOrEmpty h then fb else cellToString h
    match sanitise_identifier headerText fb with
    | none => none
    | some base =>
      match buildHeadersGo fallback rest (idx + 1)
          (fun b => if b = base then counts base + 1 else counts b) with
      | none => none
      | some hs =>
        some ((if counts base = 0 then base
               else base ++ '_' :: natToChars (counts base + 1)) :: hs)

/-- Model of `build_headers`: derive header text (raw value if non-null,
non-empty, else a positional fallback), sanitize it with the positional
fallback, and disambiguate repeated base names with an occurrence suffix
starting at `_2`. -/
def build_headers (raw : List Cell) (fallback : List Char) : Option (List (List Char)) :=
  buildHeadersGo fallback raw 0 (fun _ => 0)

/-- Model of `build_table_name`: sanitize `"{stem}_{sheet}"` with fallback
`"table"` and keep at most 63 characters. -/
def build_table_name (stem sheet : List Char) : Option (List Char) :=
  (sanitise_identifier (stem ++ '_' :: sheet) "table".data).map (fun t => t.take 63)

/-- Model of `_is_blank_row`: every cell is `None` or whitespace-only text. -/
def is_blank_row (row : List Cell) : Bool :=
  row.all (fun c =>
    match c with
    | Cell.cnone => true
    | Cell.str s => (pyStrip s).isEmpty
    | _ => false)

/-- Model of `drop_leading_blank_rows` (`itertools.dropwhile`). -/
def drop_leading_blank_rows (rows : List (List Cell)) : List (List Cell) :=
  rows.dropWhile is_blank_row

/-- The score contribution of one cell in `detect_header_index`. -/
def cellScore : Cell → Nat
  | Cell.cnone => 0
  | Cell.str s => if (pyStrip s).isEmpty then 0 else 1
  | _ => 1

/-- The density score of a candidate header row. -/
def rowScore (row : List Cell) : Nat := row.foldl (fun s c => s + cellScore c) 0

/-- Loop of `detect_header_index`: carries the current index, the best index
so far, and the best score so far (Python starts the best score at `-1`). -/
def detectGo : List (List Cell) → Nat → Nat → Int → Nat
  | [], _, bestIdx, _ => bestIdx
  | row :: rest, idx, bestIdx, bestScore =>
    if bestScore < (rowScore row : Int) then detectGo rest (idx + 1) idx (rowScore row)
    else detectGo rest (idx + 1) bestIdx bestScore

/-- Model of `detect_header_index`: scan the first `min(max_scan, len(rows))`
rows and keep the first index whose score strictly exceeds all previous. -/
def detect_header_index (rows : List (List Cell)) (maxScan : Nat) : Nat :=
  detectGo (rows.take maxScan) 0 0 (-1)

/-- A worksheet grid, 1-based as in openpyxl: row and column index to value. -/
def Grid : Type := Nat → Nat → Cell

/-- A declared merged range of a worksheet (inclusive bounds). -/
structure MergedRange where
  min_row : Nat
  min_col : Nat
  max_row : Nat
  max_col : Nat
deriving DecidableEq

/-- Membership of a coordinate in a merged range. -/
def inRange (r : MergedRange) (i j : Nat) : Bool :=
  decide (r.min_row ≤ i) && decide (i ≤ r.max_row) &&
    decide (r.min_col ≤ j) && decide (j ≤ r.max_col)

/-- The Python test `cell.value in (None, "")` used during merge filling. -/
def isEmptyCell (c : Cell) : Bool := c == Cell.cnone || c == Cell.str []

/-- One iteration of the `unmerge_cells` loop: read the anchor value, then
give it to every empty cell of the range. -/
def fillRange (g : Grid) (r : MergedRange) : Grid :=
  fun i j =>
    if inRange r i j && isEmptyCell (g i j) then g r.min_row r.min_col else g i j

/-- Folds `fillRange` over the declared ranges in order. -/
def unmergeGo : List MergedRange → Grid → Grid
  | [], g => g
  | r :: rs, g => unmergeGo rs (fillRange g r)

/-- Model of `unmerge_cells`: fill every empty cell of each declared merged
range with the range's anchor value and clear the declarations. -/
def unmerge_cells (g : Grid) (ranges : List MergedRange) : Grid × List MergedRange :=
  (unmergeGo ranges g, [])

/-- The normalized output of one worksheet (the `WorksheetPayload` dataclass;
the pandas DataFrame is modelled as its column list plus its row list). -/
structure WorksheetPayload where
  table_name : List Char
  original_headers : List (List Char)
  df_columns : List (List Char)
  df_rows : List (List Cell)
  source_file : List Char
  sheet_name : List Char
deriving DecidableEq

/-- A row that pandas `dropna(how="all")` removes: every value is NA
(`None`); empty or whitespace text is not NA. -/
def isNARow (row : List Cell) : Bool := row.all (fun c => c == Cell.cnone)

/-- One entry of `original_headers`: `str(col) if col is not None else ""`. -/
def origHeader (c : Cell) : List Char :=
  match c with
  | Cell.cnone => []
  | _ => cellToString c

/-- Model of `worksheet_to_dataframe` on the grid rows read after merge
resolution: trim leading blank rows, locate the header, build sanitized
column names, drop all-NA data rows, and return `none` when nothing is
left. -/
def worksheet_to_payload (rawRows : List (List Cell)) (maxScan : Nat)
    (stem sheet : List Char) : Option WorksheetPayload :=
  let rows := drop_leading_blank_rows rawRows
  if rows.isEmpty then none
  else
    let hidx := detect_header_index rows maxScan
    let headerRow := rows.getD hidx []
    let dataRows := rows.drop (hidx + 1)
    match build_headers headerRow "column".data with
    | none => none
    | some headers =>
      let dfRows := dataRows.filter (fun r => !isNARow r)
      if dfRows.isEmpty then none
      else
        match build_table_name stem sheet with
        | none => none
        | some tname =>
          some ⟨tname, headerRow.map origHeader, headers, dfRows, stem, sheet⟩

/-- First-match lookup in an association list (the row a SQL point query
with an equality on the primary key returns). -/
def lookupAssoc {α β : Type} [DecidableEq α] (k : α) : List (α × β) → Option β
  | [] => none
  | e :: rest => if e.1 = k then some e.2 else lookupAssoc k rest

/-- `REPLACE INTO` on a keyed table: overwrite the row with this primary key
when present, insert it otherwise. -/
def replaceAssoc {α β : Type} [DecidableEq α] (k : α) (v : β) :
    List (α × β) → List (α × β)
  | [] => [(k, v)]
  | e :: rest => if e.1 = k then (k, v) :: rest else e :: replaceAssoc k v rest

/-- The SQLite store: data tables (name to columns and rows), the
`table_metadata` side-table and the `column_metadata` side-table, each
keyed by its primary key. -/
structure DB where
  tables : List (List Char × (List (List Char) × List (List Cell)))
  tableMeta : List (List Char × (List Char × List Char))
  columnMeta : List ((List Char × Nat) × (List Char × List Char))
deriving DecidableEq

/-- `CREATE TABLE IF NOT EXISTS` for the side-tables: schemas are not part
of the store model, so this mutates nothing (it is still a fallible
operation in the writer). -/
def createSchemas (db : DB) : DB := db

/-- `dataframe.to_sql(..., if_exists="replace")`: drop and recreate the data
table under the payload's name. -/
def toSqlReplace (p : WorksheetPayload) (db : DB) : DB :=
  ⟨replaceAssoc p.table_name (p.df_columns, p.df_rows) db.tables,
    db.tableMeta, db.columnMeta⟩

/-- `REPLACE INTO table_metadata` for one payload. -/
def writeTableMeta (p : WorksheetPayload) (db : DB) : DB :=
  ⟨db.tables,
    replaceAssoc p.table_name (p.source_file, p.sheet_name) db.tableMeta,
    db.columnMeta⟩

/-- The parameter rows of the `executemany` over `column_metadata`: one row
per column position of the payload. -/
def columnMetaRows (p : WorksheetPayload) :
    List ((List Char × Nat) × (List Char × List Char)) :=
  (List.range p.df_columns.length).map
    (fun i => ((p.table_name, i), (p.df_columns.getD i [], p.original_headers.getD i [])))

/-- `executemany("REPLACE INTO column_metadata ...")` for one payload. -/
def writeColumnMeta (p : WorksheetPayload) (db : DB) : DB :=
  ⟨db.tables, db.tableMeta,
    (columnMetaRows p).foldl (fun cm e => replaceAssoc e.1 e.2 cm) db.columnMeta⟩

/-- The three statements the writer issues for one payload, in order. -/
def payloadOps (p : WorksheetPayload) : List (DB → DB) :=
  [toSqlReplace p, writeTableMeta p, writeColumnMeta p]

/-- Every statement one invocation of the writer issues before the commit:
the two schema creations, then three statements per payload. -/
def allOps (ps : List WorksheetPayload) : List (DB → DB) :=
  createSchemas :: createSchemas :: (ps.map payloadOps).flatten

/-- An open SQLite connection: the committed store and the pending
(uncommitted) state the statements mutate. -/
structure Conn where
  committed : DB
  pending : DB

/-- Runs the statements in order against the pending state.  The `fail`
oracle says which statement (by sequence number) raises; a raise stops
execution with the flag `false`. -/
def runOps (fail : Nat → Bool) : List (DB → DB) → Nat → Conn → Conn × Bool
  | [], _, c => (c, true)
  | op :: ops, k, c =>
    if fail k then (c, false)
    else runOps fail ops (k + 1) ⟨c.committed, op c.pending⟩

/-- Model of `write_payloads_to_db`: open a connection on the store, run the
schema creations and all per-payload statements against the pending state,
and issue exactly one commit at the end.  On any raise, the `finally` block
closes the connection without committing, leaving the committed store; the
commit itself may also raise, with the same effect. -/
def write_payloads_to_db (fail : Nat → Bool) (ps : List WorksheetPayload)
    (db : DB) : DB × Bool :=
  let r := runOps fail (allOps ps) 0 ⟨db, db⟩
  if r.2 then
    if fail (allOps ps).length then (r.1.committed, false)
    else (r.1.pending, true)
  else (r.1.committed, false)

/-- The glob-character test `any(ch in str(path) for ch in "*?[]")`. -/
def hasGlobChar (p : List Char) : Bool :=
  p.any (fun c => c == '*' || c == '?' || c == '[' || c == ']')

/-- Model of `resolve_files` over an abstract filesystem: `ex` says whether
a literal path exists, `gl` returns the sorted matches of a glob pattern.
A literal path that does not exist raises `FileNotFoundError`. -/
def resolve_files (ex : List Char → Bool) (gl : List Char → List (List Char)) :
    List (List Char) → Except (List Char) (List (List Char))
  | [] => Except.ok []
  | p :: ps =>
    if hasGlobChar p then
      match resolve_files ex gl ps with
      | Except.ok r => Except.ok (gl p ++ r)
      | Except.error e => Except.error e
    else if ex p then
      match resolve_files ex gl ps with
      | Except.ok r => Except.ok (p :: r)
      | Except.error e => Except.error e
    else Except.error ("No such file or pattern: ".data ++ p)

/-- The observable outcome of one run of `main`: which workbooks were
processed, which drew the "No tabular data found" notice, and either the
payload batch handed to the writer or the fatal error message. -/
structure RunResult where
  processed : List (List Char)
  notices : List (List Char)
  outcome : Except (List Char) (List WorksheetPayload)

/-- Model of `main` up to the write phase: resolve the inputs (fatal on a
bad literal path), abort when nothing resolved, process every workbook in
order (`proc` abstracts `process_workbook`), notice each workbook yielding
no payloads without aborting, and abort only when the whole batch is
empty. -/
def main_model (ex : List Char → Bool) (gl : List Char → List (List Char))
    (proc : List Char → List WorksheetPayload) (args : List (List Char)) : RunResult :=
  match resolve_files ex gl args with
  | Except.error e => ⟨[], [], Except.error e⟩
  | Except.ok paths =>
    if paths.isEmpty then
      ⟨[], [], Except.error "No Excel files matched the provided arguments.".data⟩
    else
      let payloads := (paths.map proc).flatten
      let notes := paths.filter (fun p => (proc p).isEmpty)
      if payloads.isEmpty then
        ⟨paths, notes, Except.error "No usable worksheets found across provided files.".data⟩
      else ⟨paths, notes, Except.ok payloads⟩

/-- Merged ranges of a valid workbook never overlap. -/
def rangesDisjoint (rs : List MergedRange) : Prop :=
  rs.Pairwise (fun r r2 => ∀ i j, ¬(inRange r i j = true ∧ inRange r2 i j = true))

/-- A concrete grid with a single populated anchor cell at (1, 1). -/
def mergeDemoGrid : Grid :=
  fun i j => if i == 1 && j == 1 then Cell.str ['x'] else Cell.cnone

/-- The concrete 2-by-2 merged range anchored at (1, 1). -/
def mergeDemoRange : MergedRange := ⟨1, 1, 2, 2⟩

/-- A processor for the witness runs: workbook "b" yields one payload,
everything else yields nothing. -/
def demoProc : List Char → List WorksheetPayload :=
  fun p => if p = "b".data then [⟨"t".data, [], [], [], "f".data, "s".data⟩] else []

/-- A filesystem for the witness runs where every literal path exists. -/
def demoEx : List Char → Bool := fun _ => true

/-- A glob resolver for the witness runs that matches nothing. -/
def demoGl : List Char → List (List Char) := fun _ => []

/-- Number of rows of a keyed table carrying a given primary key. -/
def countKey {α β : Type} [DecidableEq α] (k : α) (l : List (α × β)) : Nat :=
  (l.map Prod.fst).count k

/-! ## Lemmas about the transactional writer -/

/-- Statements never touch the committed side of the connection. -/
theorem runOps_committed (fail : Nat → Bool) :
    ∀ ops k c, ((runOps fail ops k c).1).committed = c.committed := by
  intro ops
  induction ops with
  | nil => intro k c; rfl
  | cons op ops ih =>
    intro k c
    simp only [runOps]
    split
    · rfl
    · exact ih (k + 1) ⟨c.committed, op c.pending⟩

/-- When no statement raises, the pending state is the in-order application
of all statements. -/
theorem runOps_pending (fail : Nat → Bool) :
    ∀ ops k c, (runOps fail ops k c).2 = true →
      (runOps fail ops k c).1.pending = ops.foldl (fun d f => f d) c.pending := by
  intro ops
  induction ops with
  | nil => intro k c _; rfl
  | cons op ops ih =>
    intro k c h
    simp only [runOps] at h ⊢
    split at h
    · exact absurd h (by simp)
    · rename_i hf
      rw [if_neg (by simpa using hf)]
      simpa using ih (k + 1) ⟨c.committed, op c.pending⟩ h

/-- Claim C2: every database write of one invocation of the metadata writer
is committed as a single unit of work: whenever any statement (or the final
commit) raises, the store is left at its prior committed state, and on
success the store is exactly the in-order application of every statement. -/
theorem write_payloads_atomic : ∀ (fail : Nat → Bool) (ps : List WorksheetPayload)
    (db db2 : DB),
    (write_payloads_to_db fail ps db = (db2, false) → db2 = db) ∧
    (write_payloads_to_db fail ps db = (db2, true) →
      db2 = (allOps ps).foldl (fun d f => f d) db) := by
  intro fail ps db db2
  have hc := runOps_committed fail (allOps ps) 0 ⟨db, db⟩
  have hp := runOps_pending fail (allOps ps) 0 ⟨db, db⟩
  constructor
  · intro h
    simp only [write_payloads_to_db] at h
    split at h
    · split at h
      · cases h; exact hc
      · cases h
    · cases h; exact hc
  · intro h
    simp only [write_payloads_to_db] at h
    split at h
    · split at h
      · cases h
      · rename_i hok _
        cases h
        exact hp hok
    · cases h

/-- Closed witness for `write_payloads_atomic`: a writer whose very first
statement raises leaves a concrete store untouched. -/
theorem write_payloads_atomic_spot :
    write_payloads_to_db (fun _ => true) [] ⟨[], [], []⟩ = (⟨[], [], []⟩, false) ∧
      (⟨[], [], []⟩ : DB) = ⟨[], [], []⟩ :=
  ⟨by decide, (write_payloads_atomic (fun _ => true) [] ⟨[], [], []⟩ ⟨[], [], []⟩).1 (by decide)⟩

/-! ## Row trimming -/

/-- Claim C6: `drop_leading_blank_rows` removes exactly the maximal prefix of
entirely blank rows: when the first non-blank row sits at index k the result
is `rows.drop k`, and an all-blank list gives the empty list. -/
theorem drop_leading_blank_rows_spec :
    (∀ (rows : List (List Cell)) (k : Nat), k < rows.length →
      (∀ j, j < k → is_blank_row (rows.getD j []) = true) →
      is_blank_row (rows.getD k []) = false →
      drop_leading_blank_rows rows = rows.drop k) ∧
    (∀ rows : List (List Cell), (∀ r ∈ rows, is_blank_row r = true) →
      drop_leading_blank_rows rows = []) := by
  constructor
  · intro rows
    induction rows with
    | nil => intro k hk; simp at hk
    | cons r rest ih =>
      intro k hk hpre hnb
      cases k with
      | zero =>
        simp only [List.getD_cons_zero] at hnb
        simp [drop_leading_blank_rows, List.dropWhile_cons, hnb]
      | succ k =>
        have h0 : is_blank_row r = true := by
          have := hpre 0 (Nat.succ_pos k)
          simpa using this
        have htail : drop_leading_blank_rows rest = rest.drop k := by
          refine ih k (by simpa using hk) (fun j hj => ?_) (by simpa using hnb)
          have := hpre (j + 1) (by omega)
          simpa using this
        simp only [drop_leading_blank_rows, List.dropWhile_cons, h0, if_pos, List.drop_succ_cons]
        exact htail
  · intro rows h
    exact List.dropWhile_eq_nil_iff.mpr h

/-- Closed witness for `drop_leading_blank_rows_spec` at concrete grids. -/
theorem drop_leading_blank_rows_spot :
    drop_leading_blank_rows [[Cell.cnone], [Cell.num 1], [Cell.cnone]]
        = [[Cell.num 1], [Cell.cnone]] ∧
      drop_leading_blank_rows [[Cell.cnone], [Cell.str " ".data]] = [] :=
  ⟨drop_leading_blank_rows_spec.1 [[Cell.cnone], [Cell.num 1], [Cell.cnone]] 1
      (by decide) (by decide) (by decide),
    drop_leading_blank_rows_spec.2 [[Cell.cnone], [Cell.str " ".data]] (by decide)⟩

/-! ## Header detection on the empty grid -/

/-- Claim C10: on an empty row sequence `detect_header_index` raises nothing
and returns 0 for every scan depth. -/
theorem detect_header_index_empty : ∀ maxScan : Nat, detect_header_index [] maxScan = 0 := by
  intro m
  simp [detect_header_index, detectGo]

/-! ## The duplicate-suffix collision in build_headers -/

/-- Claim C1 (failing input): on the raw headers `["a", "a", "a_2"]` the
suffix `_2` generated for the second `"a"` collides with the sanitized form
of the third header, so `build_headers` returns a list with two equal
entries, contradicting the documented all-distinct guarantee. -/
theorem build_headers_duplicate_collision :
    build_headers [Cell.str "a".data, Cell.str "a".data, Cell.str "a_2".data] "column".data
        = some ["a".data, "a_2".data, "a_2".data] ∧
      ¬ ([ "a".data, "a_2".data, "a_2".data ] : List (List Char)).Nodup := by
  constructor
  · decide
  · decide

/-! ## Totality and validity of identifier sanitization -/

/-- Every character the non-word-run replacement emits is a word
character. -/
theorem replaceNonWordRunsGo_wordChar :
    ∀ (l : List Char) (b : Bool), ∀ c ∈ replaceNonWordRunsGo l b, isWordChar c = true := by
  intro l
  induction l with
  | nil => intro b c hc; simp [replaceNonWordRunsGo] at hc
  | cons d rest ih =>
    intro b c hc
    simp only [replaceNonWordRunsGo] at hc
    by_cases hw : isWordChar d
    · rw [if_pos hw] at hc
      rcases List.mem_cons.mp hc with h | h
      · exact h ▸ hw
      · exact ih false c h
    · rw [if_neg hw] at hc
      split at hc
      · exact ih true c hc
      · rcases List.mem_cons.mp hc with h | h
        · exact h ▸ (by decide)
        · exact ih true c h

/-- Underscore collapsing emits only characters of its input or
underscores. -/
theorem collapseUnderscoresGo_wordChar :
    ∀ (l : List Char) (b : Bool), (∀ c ∈ l, isWordChar c = true) →
      ∀ c ∈ collapseUnderscoresGo l b, isWordChar c = true := by
  intro l
  induction l with
  | nil => intro b _ c hc; simp [collapseUnderscoresGo] at hc
  | cons d rest ih =>
    intro b hall c hc
    have hd : isWordChar d = true := hall d (List.mem_cons_self d rest)
    have hrest : ∀ c ∈ rest, isWordChar c = true :=
      fun c hc => hall c (List.mem_cons_of_mem d hc)
    simp only [collapseUnderscoresGo] at hc
    by_cases hu : (d == '_') = true
    · rw [if_pos hu] at hc
      split at hc
      · exact ih true hrest c hc
      · rcases List.mem_cons.mp hc with h | h
        · exact h ▸ (by decide)
        · exact ih true hrest c h
    · rw [if_neg hu] at hc
      rcases List.mem_cons.mp hc with h | h
      · exact h ▸ hd
      · exact ih false hrest c h

/-- Stripping outer underscores only keeps characters of the input. -/
theorem stripUnderscores_subset (l : List Char) : stripUnderscores l ⊆ l := by
  intro c hc
  simp only [stripUnderscores, List.mem_reverse] at hc
  have h1 := List.dropWhile_subset (l := (l.dropWhile (fun c => c == '_')).reverse)
    (fun c => c == '_') hc
  rw [List.mem_reverse] at h1
  exact List.dropWhile_subset (fun c => c == '_') h1

/-- Claim C3: for every input string, `sanitise_identifier` with a
well-formed fallback (non-empty, made of `[0-9a-zA-Z_]` characters, as every
fallback the program passes is) raises nothing and returns a non-empty
string of characters in `[0-9a-zA-Z_]` that does not start with a digit. -/
theorem sanitise_identifier_total_valid :
    ∀ s fallback : List Char, fallback ≠ [] →
      (∀ c ∈ fallback, isWordChar c = true) →
      ∃ h t, sanitise_identifier s fallback = some (h :: t) ∧
        h.isDigit = false ∧ ∀ c ∈ h :: t, isWordChar c = true := by
  intro s fallback hne hfw
  simp only [sanitise_identifier]
  have ht2w : ∀ c ∈ stripUnderscores (collapseUnderscores
      (replaceNonWordRuns ((pyStrip s).map Char.toLower))), isWordChar c = true := by
    intro c hc
    have h1 := stripUnderscores_subset _ hc
    exact collapseUnderscoresGo_wordChar _ false
      (replaceNonWordRunsGo_wordChar ((pyStrip s).map Char.toLower) false) c h1
  set t2 := stripUnderscores (collapseUnderscores
      (replaceNonWordRuns ((pyStrip s).map Char.toLower))) with ht2
  by_cases h2 : t2.isEmpty
  · rw [if_pos h2]
    cases fallback with
    | nil => exact absurd rfl hne
    | cons f fs =>
      by_cases hd : f.isDigit
      · exact ⟨'_', f :: fs, by simp [hd], by decide, by
          intro c hc
          rcases List.mem_cons.mp hc with h | h
          · exact h ▸ (by decide)
          · exact hfw c h⟩
      · refine ⟨f, fs, by simp [hd], by simpa using hd, hfw⟩
  · rw [if_neg h2]
    cases ht : t2 with
    | nil => rw [ht] at h2; simp at h2
    | cons f fs =>
      have hfsw : ∀ c ∈ f :: fs, isWordChar c = true := ht ▸ ht2w
      by_cases hd : f.isDigit
      · exact ⟨'_', f :: fs, by simp [hd], by decide, by
          intro c hc
          rcases List.mem_cons.mp hc with h | h
          · exact h ▸ (by decide)
          · exact hfsw c h⟩
      · exact ⟨f, fs, by simp [hd], by simpa using hd, hfsw⟩

/-- Closed witness for `sanitise_identifier_total_valid` at a digit-leading,
punctuation-laden input. -/
theorem sanitise_identifier_total_valid_spot :
    (sanitise_identifier "2 Farmers!".data "column".data).isSome = true := by
  obtain ⟨h, t, heq, -, -⟩ :=
    sanitise_identifier_total_valid "2 Farmers!".data "column".data
      (by decide) (by decide)
  rw [heq]
  rfl

/-! ## Header detection: earliest maximum -/

/-- Loop invariant of `detect_header_index`: either no scanned row beats the
incoming best score and the incoming best index is returned, or the result
is the offset of the first row that attains the maximum of the scanned
scores (strictly above the incoming best score), and no earlier scanned row
reaches it. -/
theorem detectGo_spec :
    ∀ (l : List (List Cell)) (idx bI : Nat) (bS : Int),
      (detectGo l idx bI bS = bI ∧
        ∀ k, k < l.length → (rowScore (l.getD k []) : Int) ≤ bS) ∨
      (∃ k, k < l.length ∧ detectGo l idx bI bS = idx + k ∧
        bS < (rowScore (l.getD k []) : Int) ∧
        (∀ j, j < l.length → rowScore (l.getD j []) ≤ rowScore (l.getD k [])) ∧
        (∀ j, j < k → rowScore (l.getD j []) < rowScore (l.getD k []))) := by
  intro l
  induction l with
  | nil =>
    intro idx bI bS
    exact Or.inl ⟨rfl, fun k hk => by simp at hk⟩
  | cons row rest ih =>
    intro idx bI bS
    simp only [detectGo]
    by_cases hlt : bS < (rowScore row : Int)
    · rw [if_pos hlt]
      rcases ih (idx + 1) idx (rowScore row) with ⟨heq, hall⟩ | ⟨k, hk, heq, hgt, hall, hfirst⟩
      · refine Or.inr ⟨0, by simp, by simpa using heq, by simpa using hlt, ?_, ?_⟩
        · intro j hj
          cases j with
          | zero => simp
          | succ j =>
            simp only [List.getD_cons_succ, List.getD_cons_zero]
            have := hall j (by simpa using hj)
            exact_mod_cast this
        · intro j hj
          exact absurd hj (Nat.not_lt_zero j)
      · refine Or.inr ⟨k + 1, by simpa using hk, by rw [heq]; omega, ?_, ?_, ?_⟩
        · simp only [List.getD_cons_succ]
          exact lt_trans hlt hgt
        · intro j hj
          cases j with
          | zero =>
            simp only [List.getD_cons_succ, List.getD_cons_zero]
            exact_mod_cast le_of_lt hgt
          | succ j => simpa using hall j (by simpa using hj)
        · intro j hj
          cases j with
          | zero =>
            simp only [List.getD_cons_succ, List.getD_cons_zero]
            exact_mod_cast hgt
          | succ j => simpa using hfirst j (by omega)
    · rw [if_neg hlt]
      have hle : (rowScore row : Int) ≤ bS := le_of_not_lt hlt
      rcases ih (idx + 1) bI bS with ⟨heq, hall⟩ | ⟨k, hk, heq, hgt, hall, hfirst⟩
      · refine Or.inl ⟨heq, fun k hk => ?_⟩
        cases k with
        | zero => simpa using hle
        | succ k => simpa using hall k (by simpa using hk)
      · refine Or.inr ⟨k + 1, by simpa using hk, by rw [heq]; omega, by simpa using hgt, ?_, ?_⟩
        · intro j hj
          cases j with
          | zero =>
            simp only [List.getD_cons_succ, List.getD_cons_zero]
            exact_mod_cast le_trans hle (le_of_lt hgt)
          | succ j => simpa using hall j (by simpa using hj)
        · intro j hj
          cases j with
          | zero =>
            simp only [List.getD_cons_succ, List.getD_cons_zero]
            exact_mod_cast lt_of_le_of_lt hle hgt
          | succ j => simpa using hfirst j (by omega)

/-- Claim C5: on a non-empty row sequence with a positive scan depth,
`detect_header_index` examines only the first `min(max_scan, len(rows))`
rows, returns an index inside that window whose density score is the maximum
of the window, and every earlier scanned row scores strictly less (an equal
later score never displaces an earlier winner); and on four rows scoring
`[3, 5, 5, 2]` it returns index 1. -/
theorem detect_header_index_earliest_max :
    (∀ (rows : List (List Cell)) (maxScan : Nat), rows ≠ [] → 0 < maxScan →
      detect_header_index rows maxScan < (rows.take maxScan).length ∧
      (∀ j, j < (rows.take maxScan).length →
        rowScore ((rows.take maxScan).getD j [])
          ≤ rowScore ((rows.take maxScan).getD (detect_header_index rows maxScan) [])) ∧
      (∀ j, j < detect_header_index rows maxScan →
        rowScore ((rows.take maxScan).getD j [])
          < rowScore ((rows.take maxScan).getD (detect_header_index rows maxScan) []))) ∧
    detect_header_index [List.replicate 3 (Cell.num 1), List.replicate 5 (Cell.num 1),
      List.replicate 5 (Cell.num 1), List.replicate 2 (Cell.num 1)] 10 = 1 := by
  constructor
  · intro rows maxScan hne hms
    have hlen : 0 < (rows.take maxScan).length := by
      cases rows with
      | nil => exact absurd rfl hne
      | cons r rest =>
        cases maxScan with
        | zero => omega
        | succ m => simp
    rcases detectGo_spec (rows.take maxScan) 0 0 (-1) with ⟨heq, hall⟩ | ⟨k, hk, heq, _, hall, hfirst⟩
    · have := hall 0 hlen
      have hge : (0 : Int) ≤ (rowScore ((rows.take maxScan).getD 0 []) : Int) := by
        exact_mod_cast Nat.zero_le _
      omega
    · have hidx : detect_header_index rows maxScan = k := by
        simpa [detect_header_index] using heq
      rw [hidx]
      exact ⟨hk, hall, hfirst⟩
  · decide

/-- Closed witness for `detect_header_index_earliest_max` on a concrete
two-row grid. -/
theorem detect_header_index_earliest_max_spot :
    detect_header_index [[Cell.cnone], [Cell.num 7]] 10 < 2 := by
  have h := (detect_header_index_earliest_max.1 [[Cell.cnone], [Cell.num 7]] 10
    (by decide) (by decide)).1
  simpa using h

/-! ## Merge resolution -/

/-- Cells outside every remaining range are never touched. -/
theorem unmergeGo_outside :
    ∀ (rs : List MergedRange) (g : Grid) (i j : Nat),
      (∀ r ∈ rs, inRange r i j = false) → unmergeGo rs g i j = g i j := by
  intro rs
  induction rs with
  | nil => intro g i j _; rfl
  | cons r0 rest ih =>
    intro g i j hout
    have h0 : inRange r0 i j = false := hout r0 (List.mem_cons_self r0 rest)
    have hfill : fillRange g r0 i j = g i j := by
      simp [fillRange, h0]
    calc unmergeGo (r0 :: rest) g i j
        = unmergeGo rest (fillRange g r0) i j := rfl
      _ = fillRange g r0 i j := ih (fillRange g r0) i j
          (fun r hr => hout r (List.mem_cons_of_mem r0 hr))
      _ = g i j := hfill

/-- Cells holding a non-empty value are never touched. -/
theorem unmergeGo_keeps_nonempty :
    ∀ (rs : List MergedRange) (g : Grid) (i j : Nat),
      isEmptyCell (g i j) = false → unmergeGo rs g i j = g i j := by
  intro rs
  induction rs with
  | nil => intro g i j _; rfl
  | cons r0 rest ih =>
    intro g i j hne
    have hfill : fillRange g r0 i j = g i j := by
      simp [fillRange, hne]
    calc unmergeGo (r0 :: rest) g i j
        = unmergeGo rest (fillRange g r0) i j := rfl
      _ = fillRange g r0 i j := ih (fillRange g r0) i j (by rw [hfill]; exact hne)
      _ = g i j := hfill

/-- Empty cells of a declared range receive that range's anchor value. -/
theorem unmergeGo_fills :
    ∀ (rs : List MergedRange) (g : Grid),
      List.Pairwise (fun r r2 => ∀ i j, ¬(inRange r i j = true ∧ inRange r2 i j = true)) rs →
      (∀ r ∈ rs, inRange r r.min_row r.min_col = true) →
      ∀ r ∈ rs, ∀ i j, inRange r i j = true → isEmptyCell (g i j) = true →
        unmergeGo rs g i j = g r.min_row r.min_col := by
  intro rs
  induction rs with
  | nil => intro g _ _ r hr; simp at hr
  | cons r0 rest ih =>
    intro g hpw hanchor r hr i j hin hemp
    have hpw0 := List.pairwise_cons.mp hpw
    rcases List.mem_cons.mp hr with hr0 | hrest
    · subst hr0
      have hout : ∀ r2 ∈ rest, inRange r2 i j = false := by
        intro r2 h2
        cases hcase : inRange r2 i j with
        | false => rfl
        | true => exact absurd ⟨hin, hcase⟩ (hpw0.1 r2 h2 i j)
      have hfill : fillRange g r i j = g r.min_row r.min_col := by
        simp [fillRange, hin, hemp]
      calc unmergeGo (r :: rest) g i j
          = unmergeGo rest (fillRange g r) i j := rfl
        _ = fillRange g r i j := unmergeGo_outside rest (fillRange g r) i j hout
        _ = g r.min_row r.min_col := hfill
    · have hnot0 : inRange r0 i j = false := by
        cases hcase : inRange r0 i j with
        | false => rfl
        | true => exact absurd ⟨hcase, hin⟩ (hpw0.1 r hrest i j)
      have hnotAnchor : inRange r0 r.min_row r.min_col = false := by
        cases hcase : inRange r0 r.min_row r.min_col with
        | false => rfl
        | true =>
          exact absurd ⟨hcase, hanchor r (List.mem_cons_of_mem r0 hrest)⟩
            (hpw0.1 r hrest r.min_row r.min_col)
      have hfill : fillRange g r0 i j = g i j := by
        simp [fillRange, hnot0]
      have hfillAnchor : fillRange g r0 r.min_row r.min_col = g r.min_row r.min_col := by
        simp [fillRange, hnotAnchor]
      calc unmergeGo (r0 :: rest) g i j
          = unmergeGo rest (fillRange g r0) i j := rfl
        _ = fillRange g r0 r.min_row r.min_col :=
            ih (fillRange g r0) hpw0.2
              (fun r2 h2 => hanchor r2 (List.mem_cons_of_mem r0 h2)) r hrest i j hin
              (by rw [hfill]; exact hemp)
        _ = g r.min_row r.min_col := hfillAnchor

/-- Claim C7: after merge resolution on pairwise-disjoint declared ranges
(each containing its anchor, as in any valid workbook), every formerly empty
cell of a range holds the range's anchor value, every cell that already held
a non-empty value is unchanged, the declarations are cleared, and resolving
with no remaining ranges changes nothing. -/
theorem unmerge_cells_spec :
    ∀ (g : Grid) (ranges : List MergedRange),
      rangesDisjoint ranges →
      (∀ r ∈ ranges, inRange r r.min_row r.min_col = true) →
      (unmerge_cells g ranges).2 = [] ∧
      (∀ r ∈ ranges, ∀ i j, inRange r i j = true → isEmptyCell (g i j) = true →
        (unmerge_cells g ranges).1 i j = g r.min_row r.min_col) ∧
      (∀ r ∈ ranges, ∀ i j, inRange r i j = true → isEmptyCell (g i j) = false →
        (unmerge_cells g ranges).1 i j = g i j) ∧
      (unmerge_cells g []).1 = g := by
  intro g ranges hdisj hanchor
  refine ⟨rfl, ?_, ?_, rfl⟩
  · intro r hr i j hin hemp
    exact unmergeGo_fills ranges g hdisj hanchor r hr i j hin hemp
  · intro r _ i j _ hne
    exact unmergeGo_keeps_nonempty ranges g i j hne

/-- Closed witness for `unmerge_cells_spec`: the empty cell (2, 2) of the
demo range receives the anchor value. -/
theorem unmerge_cells_spec_spot :
    (unmerge_cells mergeDemoGrid [mergeDemoRange]).1 2 2 = Cell.str ['x'] := by
  have h := (unmerge_cells_spec mergeDemoGrid [mergeDemoRange]
    (by simp [rangesDisjoint]) (by decide)).2.1 mergeDemoRange
    (List.mem_cons_self mergeDemoRange []) 2 2 (by decide) (by decide)
  rw [h]
  decide

/-! ## Blank-row filtering in the table assembler -/

/-- Inversion of a successful assembly: the payload's data rows are the rows
below the detected header with the all-NA rows filtered out, and its columns
come from `build_headers` on the header row. -/
theorem worksheet_to_payload_inv (rawRows : List (List Cell)) (maxScan : Nat)
    (stem sheet : List Char) (p : WorksheetPayload) :
    worksheet_to_payload rawRows maxScan stem sheet = some p →
    p.df_rows = ((drop_leading_blank_rows rawRows).drop
        (detect_header_index (drop_leading_blank_rows rawRows) maxScan + 1)).filter
        (fun r => !isNARow r) ∧
      p.original_headers = ((drop_leading_blank_rows rawRows).getD
        (detect_header_index (drop_leading_blank_rows rawRows) maxScan) []).map origHeader ∧
      build_headers ((drop_leading_blank_rows rawRows).getD
        (detect_header_index (drop_leading_blank_rows rawRows) maxScan) []) "column".data
        = some p.df_columns := by
  intro h
  simp only [worksheet_to_payload] at h
  split at h
  · cases h
  · split at h
    · cases h
    · rename_i headers hbh
      split at h
      · cases h
      · split at h
        · cases h
        · cases h
          exact ⟨rfl, rfl, hbh⟩

/-- Claim C4 (failing input): a data row of whitespace-only text is blank in
the sense the spec defines, yet pandas `dropna(how="all")` keeps it, so a
worksheet whose only non-blank row is the header still yields a payload. -/
theorem worksheet_blank_text_row_kept :
    is_blank_row [Cell.str " ".data] = true ∧
      worksheet_to_payload [[Cell.str "a".data], [Cell.str " ".data]] 10 "f".data "s".data
        = some ⟨"f_s".data, ["a".data], ["a".data], [[Cell.str " ".data]], "f".data, "s".data⟩ := by
  exact ⟨by decide, by decide⟩

/-- Claim C4 as amended: the assembler drops exactly the data rows whose
cells are all absent (`None`) — rows of empty or whitespace-only text are
kept — and returns no payload when every row below the detected header is
entirely absent (in particular when no data rows remain at all). -/
theorem worksheet_to_payload_allNA_filter :
    ∀ (rawRows : List (List Cell)) (maxScan : Nat) (stem sheet : List Char),
      (∀ p, worksheet_to_payload rawRows maxScan stem sheet = some p →
        (∀ r ∈ p.df_rows, isNARow r = false) ∧
        p.df_rows = ((drop_leading_blank_rows rawRows).drop
          (detect_header_index (drop_leading_blank_rows rawRows) maxScan + 1)).filter
          (fun r => !isNARow r)) ∧
      ((∀ r ∈ (drop_leading_blank_rows rawRows).drop
          (detect_header_index (drop_leading_blank_rows rawRows) maxScan + 1),
          isNARow r = true) →
        worksheet_to_payload rawRows maxScan stem sheet = none) := by
  intro rawRows maxScan stem sheet
  constructor
  · intro p hp
    obtain ⟨hrows, -, -⟩ := worksheet_to_payload_inv rawRows maxScan stem sheet p hp
    refine ⟨?_, hrows⟩
    intro r hr
    rw [hrows] at hr
    have := (List.mem_filter.mp hr).2
    simpa using this
  · intro hall
    have hfil : ((drop_leading_blank_rows rawRows).drop
        (detect_header_index (drop_leading_blank_rows rawRows) maxScan + 1)).filter
        (fun r => !isNARow r) = [] := by
      rw [List.filter_eq_nil_iff]
      intro r hr
      simp [hall r hr]
    simp only [worksheet_to_payload]
    split
    · rfl
    · split
      · rfl
      · rw [hfil]
        simp

/-- Closed witness for `worksheet_to_payload_allNA_filter`: a header followed
only by an all-`None` row yields no payload. -/
theorem worksheet_to_payload_allNA_filter_spot :
    worksheet_to_payload [[Cell.str "a".data], [Cell.cnone]] 10 "f".data "s".data = none :=
  (worksheet_to_payload_allNA_filter [[Cell.str "a".data], [Cell.cnone]] 10
    "f".data "s".data).2 (by decide)

/-! ## Input resolution and batch error handling -/

/-- A literal argument that neither matches the glob syntax nor exists makes
`resolve_files` raise, whatever its position. -/
theorem resolve_files_error_of_bad :
    ∀ (ex : List Char → Bool) (gl : List Char → List (List Char))
      (args : List (List Char)) (p : List Char),
      p ∈ args → hasGlobChar p = false → ex p = false →
      ∃ e, resolve_files ex gl args = Except.error e := by
  intro ex gl args
  induction args with
  | nil => intro p hp; simp at hp
  | cons q rest ih =>
    intro p hp hglob hex
    rcases List.mem_cons.mp hp with hq | hrest
    · subst hq
      refine ⟨"No such file or pattern: ".data ++ p, ?_⟩
      simp [resolve_files, hglob, hex]
    · obtain ⟨e, he⟩ := ih p hrest hglob hex
      simp only [resolve_files]
      by_cases hg : hasGlobChar q = true
      · rw [if_pos hg, he]
        exact ⟨e, rfl⟩
      · rw [if_neg hg]
        by_cases hx : ex q = true
        · rw [if_pos hx, he]
          exact ⟨e, rfl⟩
        · rw [if_neg hx]
          exact ⟨_, rfl⟩

/-- Claim C9: a literal path that is neither an existing file nor a glob
pattern makes the run fail before any workbook is processed; a run whose
arguments resolve to no files fails; and a workbook yielding no usable table
draws the no-data notice while the batch continues, succeeding whenever some
workbook yields a table. -/
theorem main_model_error_handling :
    (∀ (ex : List Char → Bool) (gl : List Char → List (List Char))
        (proc : List Char → List WorksheetPayload) (args : List (List Char))
        (p : List Char),
      p ∈ args → hasGlobChar p = false → ex p = false →
      (main_model ex gl proc args).processed = [] ∧
      ∃ e, (main_model ex gl proc args).outcome = Except.error e) ∧
    (∀ ex gl proc args,
      resolve_files ex gl args = Except.ok [] →
      ∃ e, (main_model ex gl proc args).outcome = Except.error e) ∧
    (∀ ex gl proc args paths q,
      resolve_files ex gl args = Except.ok paths → q ∈ paths → proc q = [] →
      q ∈ (main_model ex gl proc args).notices ∧
      (main_model ex gl proc args).processed = paths ∧
      ((∃ r, r ∈ paths ∧ proc r ≠ []) →
        ∃ pls, (main_model ex gl proc args).outcome = Except.ok pls)) := by
  refine ⟨?_, ?_, ?_⟩
  · intro ex gl proc args p hp hglob hex
    obtain ⟨e, he⟩ := resolve_files_error_of_bad ex gl args p hp hglob hex
    simp [main_model, he]
  · intro ex gl proc args h
    simp [main_model, h]
  · intro ex gl proc args paths q hres hq hproc
    have hne : paths.isEmpty = false := by
      cases paths with
      | nil => simp at hq
      | cons a l => rfl
    have hmem : q ∈ paths.filter (fun p => (proc p).isEmpty) :=
      List.mem_filter.mpr ⟨hq, by simp [hproc]⟩
    refine ⟨?_, ?_, ?_⟩
    · simp only [main_model, hres]
      rw [hne, if_neg (by simp)]
      split <;> exact hmem
    · simp only [main_model, hres]
      rw [hne, if_neg (by simp)]
      split <;> rfl
    · rintro ⟨r, hr, hrne⟩
      obtain ⟨y, hy⟩ := List.exists_mem_of_ne_nil (proc r) hrne
      have hyj : y ∈ (paths.map proc).flatten :=
        List.mem_flatten.mpr ⟨proc r, List.mem_map_of_mem proc hr, hy⟩
      have hje : ((paths.map proc).flatten).isEmpty = false := by
        cases hcase : (paths.map proc).flatten with
        | nil => rw [hcase] at hyj; simp at hyj
        | cons a l => rfl
      refine ⟨(paths.map proc).flatten, ?_⟩
      simp [main_model, hres, hne, hje]

/-- Closed witness for `main_model_error_handling`: a missing literal path
aborts before processing, an unmatched glob aborts the run, and the empty
workbook "a" is noticed while the batch continues over both files. -/
theorem main_model_error_handling_spot :
    (main_model (fun _ => false) demoGl demoProc ["x".data]).processed = [] ∧
      (main_model demoEx demoGl demoProc ["*".data]).outcome ≠ Except.ok [] ∧
      "a".data ∈ (main_model demoEx demoGl demoProc ["a".data, "b".data]).notices ∧
      (main_model demoEx demoGl demoProc ["a".data, "b".data]).processed
        = ["a".data, "b".data] := by
  refine ⟨?_, ?_, ?_, ?_⟩
  · exact (main_model_error_handling.1 (fun _ => false) demoGl demoProc ["x".data]
      "x".data (List.mem_cons_self _ _) (by decide) rfl).1
  · obtain ⟨e, he⟩ := main_model_error_handling.2.1 demoEx demoGl demoProc
      ["*".data] rfl
    rw [he]
    simp
  · exact (main_model_error_handling.2.2 demoEx demoGl demoProc
      ["a".data, "b".data] ["a".data, "b".data] "a".data rfl
      (List.mem_cons_self _ _) (by decide)).1
  · exact (main_model_error_handling.2.2 demoEx demoGl demoProc
      ["a".data, "b".data] ["a".data, "b".data] "a".data rfl
      (List.mem_cons_self _ _) (by decide)).2.1

/-! ## Column metadata bookkeeping -/

/-- The keys after a `REPLACE INTO`: unchanged when the key was present,
extended by the new key otherwise. -/
theorem replaceAssoc_keys {α β : Type} [DecidableEq α] (k : α) (v : β) :
    ∀ l : List (α × β),
      (replaceAssoc k v l).map Prod.fst =
        if k ∈ l.map Prod.fst then l.map Prod.fst else l.map Prod.fst ++ [k] := by
  intro l
  induction l with
  | nil => simp [replaceAssoc]
  | cons e rest ih =>
    simp only [replaceAssoc]
    by_cases he : e.1 = k
    · rw [if_pos he]
      simp [he]
    · rw [if_neg he]
      simp only [List.map_cons, ih]
      by_cases hm : k ∈ rest.map Prod.fst
      · rw [if_pos hm, if_pos (by simp [hm])]
      · rw [if_neg hm, if_neg (by simp [hm, Ne.symm he]), List.cons_append]

/-- `REPLACE INTO` preserves key uniqueness. -/
theorem replaceAssoc_nodup {α β : Type} [DecidableEq α] (k : α) (v : β)
    (l : List (α × β)) (h : (l.map Prod.fst).Nodup) :
    ((replaceAssoc k v l).map Prod.fst).Nodup := by
  rw [replaceAssoc_keys]
  by_cases hm : k ∈ l.map Prod.fst
  · rw [if_pos hm]; exact h
  · rw [if_neg hm]
    exact List.Nodup.append h (List.nodup_singleton k) (by simpa using hm)

/-- Looking up the key just replaced returns the new value. -/
theorem lookupAssoc_replace_self {α β : Type} [DecidableEq α] (k : α) (v : β) :
    ∀ l : List (α × β), lookupAssoc k (replaceAssoc k v l) = some v := by
  intro l
  induction l with
  | nil => simp [replaceAssoc, lookupAssoc]
  | cons e rest ih =>
    simp only [replaceAssoc]
    by_cases he : e.1 = k
    · rw [if_pos he]
      simp [lookupAssoc]
    · rw [if_neg he]
      simp only [lookupAssoc, if_neg he]
      exact ih

/-- `REPLACE INTO` leaves other keys' lookups unchanged. -/
theorem lookupAssoc_replace_other {α β : Type} [DecidableEq α] (k k2 : α) (v : β)
    (hne : k2 ≠ k) : ∀ l : List (α × β),
      lookupAssoc k2 (replaceAssoc k v l) = lookupAssoc k2 l := by
  intro l
  induction l with
  | nil =>
    simp only [replaceAssoc, lookupAssoc]
    rw [if_neg (fun h => hne h.symm)]
  | cons e rest ih =>
    simp only [replaceAssoc]
    by_cases he : e.1 = k
    · rw [if_pos he]
      simp only [lookupAssoc]
      rw [if_neg (fun h => hne h.symm), if_neg (fun h => hne (he.symm.trans h).symm)]
    · rw [if_neg he]
      simp only [lookupAssoc]
      split
      · rfl
      · exact ih

/-- After `REPLACE INTO` on a key-unique table the replaced key has exactly
one row. -/
theorem countKey_replace_self {α β : Type} [DecidableEq α] (k : α) (v : β)
    (l : List (α × β)) (h : (l.map Prod.fst).Nodup) :
    countKey k (replaceAssoc k v l) = 1 := by
  have hmem : k ∈ (replaceAssoc k v l).map Prod.fst := by
    rw [replaceAssoc_keys]
    by_cases hm : k ∈ l.map Prod.fst
    · rw [if_pos hm]; exact hm
    · rw [if_neg hm]; simp
  exact List.count_eq_one_of_mem (replaceAssoc_nodup k v l h) hmem

/-- `REPLACE INTO` leaves other keys' row counts unchanged. -/
theorem countKey_replace_other {α β : Type} [DecidableEq α] (k k2 : α) (v : β)
    (hne : k2 ≠ k) (l : List (α × β)) :
    countKey k2 (replaceAssoc k v l) = countKey k2 l := by
  unfold countKey
  rw [replaceAssoc_keys]
  by_cases hm : k ∈ l.map Prod.fst
  · rw [if_pos hm]
  · rw [if_neg hm, List.count_append]
    simp [List.count_singleton, hne]

/-- A batch of replaces whose keys all differ from `k` leaves the lookup and
the row count of `k` unchanged. -/
theorem foldRepl_other {α β : Type} [DecidableEq α] (k : α) :
    ∀ (es : List (α × β)) (cm : List (α × β)), (∀ e ∈ es, e.1 ≠ k) →
      lookupAssoc k (es.foldl (fun cm e => replaceAssoc e.1 e.2 cm) cm)
          = lookupAssoc k cm ∧
        countKey k (es.foldl (fun cm e => replaceAssoc e.1 e.2 cm) cm)
          = countKey k cm := by
  intro es
  induction es with
  | nil => intro cm _; exact ⟨rfl, rfl⟩
  | cons e es ih =>
    intro cm hne
    have he : e.1 ≠ k := hne e (List.mem_cons_self e es)
    have hrest : ∀ e2 ∈ es, e2.1 ≠ k := fun e2 h2 => hne e2 (List.mem_cons_of_mem e h2)
    simp only [List.foldl_cons]
    obtain ⟨h1, h2⟩ := ih (replaceAssoc e.1 e.2 cm) hrest
    refine ⟨?_, ?_⟩
    · rw [h1, lookupAssoc_replace_other e.1 k e.2 (fun h => he h.symm)]
    · rw [h2, countKey_replace_other e.1 k e.2 (fun h => he h.symm)]

/-- A batch of replaces preserves key uniqueness. -/
theorem foldRepl_nodup {α β : Type} [DecidableEq α] :
    ∀ (es : List (α × β)) (cm : List (α × β)), (cm.map Prod.fst).Nodup →
      (((es.foldl (fun cm e => replaceAssoc e.1 e.2 cm) cm)).map Prod.fst).Nodup := by
  intro es
  induction es with
  | nil => intro cm h; exact h
  | cons e es ih =>
    intro cm h
    simp only [List.foldl_cons]
    exact ih (replaceAssoc e.1 e.2 cm) (replaceAssoc_nodup e.1 e.2 cm h)

/-- After a batch of replaces with pairwise distinct keys over a key-unique
table, each written key holds exactly its written value, in exactly one
row. -/
theorem foldRepl_writes {α β : Type} [DecidableEq α] :
    ∀ (es : List (α × β)) (cm : List (α × β)) (k : α) (v : β),
      (cm.map Prod.fst).Nodup → (es.map Prod.fst).Nodup → (k, v) ∈ es →
      lookupAssoc k (es.foldl (fun cm e => replaceAssoc e.1 e.2 cm) cm) = some v ∧
        countKey k (es.foldl (fun cm e => replaceAssoc e.1 e.2 cm) cm) = 1 := by
  intro es
  induction es with
  | nil => intro cm k v _ _ hmem; simp at hmem
  | cons e es ih =>
    intro cm k v hcm hes hmem
    have hes2 : (e.1 :: es.map Prod.fst).Nodup := by
      rw [List.map_cons] at hes
      exact hes
    simp only [List.foldl_cons]
    rcases List.mem_cons.mp hmem with he | hrest
    · have hk : e.1 = k := by rw [← he]
      have hv : e.2 = v := by rw [← he]
      have hnotin : ∀ e2 ∈ es, e2.1 ≠ k := by
        intro e2 h2 hcontra
        have := (List.nodup_cons.mp hes2).1
        exact this (hk ▸ hcontra ▸ (List.mem_map_of_mem Prod.fst h2))
      obtain ⟨h1, h2⟩ := foldRepl_other k es (replaceAssoc e.1 e.2 cm) hnotin
      subst hk
      subst hv
      exact ⟨h1.trans (lookupAssoc_replace_self e.1 e.2 cm),
        h2.trans (countKey_replace_self e.1 e.2 cm hcm)⟩
    · exact ih (replaceAssoc e.1 e.2 cm) k v (replaceAssoc_nodup e.1 e.2 cm hcm)
        (List.nodup_cons.mp hes2).2 hrest

/-- With no failing statement, `runOps` applies every statement in order to
the pending state and succeeds. -/
theorem runOps_noFail :
    ∀ (ops : List (DB → DB)) (k : Nat) (c : Conn),
      runOps (fun _ => false) ops k c
        = (⟨c.committed, ops.foldl (fun d f => f d) c.pending⟩, true) := by
  intro ops
  induction ops with
  | nil => intro k c; rfl
  | cons op ops ih =>
    intro k c
    simp only [runOps, List.foldl_cons, if_neg (by simp : ¬False)]
    exact ih (k + 1) ⟨c.committed, op c.pending⟩

/-- A failure-free run of the writer commits the in-order application of
every statement. -/
theorem write_payloads_noFail (ps : List WorksheetPayload) (db : DB) :
    write_payloads_to_db (fun _ => false) ps db
      = ((allOps ps).foldl (fun d f => f d) db, true) := by
  simp [write_payloads_to_db, runOps_noFail]

/-- Folding the writer's statement list is folding the per-payload batches
after the no-op schema creations. -/
theorem allOps_foldl :
    ∀ (ps : List WorksheetPayload) (db : DB),
      (allOps ps).foldl (fun d f => f d) db
        = ps.foldl (fun d p => writeColumnMeta p (writeTableMeta p (toSqlReplace p d))) db := by
  have inner : ∀ (ps : List WorksheetPayload) (db : DB),
      ((ps.map payloadOps).flatten).foldl (fun d f => f d) db
        = ps.foldl (fun d p => writeColumnMeta p (writeTableMeta p (toSqlReplace p d))) db := by
    intro ps
    induction ps with
    | nil => intro db; rfl
    | cons p ps ih =>
      intro db
      simp only [List.map_cons, List.flatten_cons, List.foldl_append, List.foldl_cons]
      exact ih (writeColumnMeta p (writeTableMeta p (toSqlReplace p db)))
  intro ps db
  simp only [allOps, List.foldl_cons]
  exact inner ps db

/-- Projection of the per-payload fold onto the `column_metadata` table. -/
theorem batch_columnMeta :
    ∀ (ps : List WorksheetPayload) (db : DB),
      (ps.foldl (fun d p => writeColumnMeta p (writeTableMeta p (toSqlReplace p d))) db).columnMeta
        = ps.foldl
            (fun cm p => (columnMetaRows p).foldl (fun cm e => replaceAssoc e.1 e.2 cm) cm)
            db.columnMeta := by
  intro ps
  induction ps with
  | nil => intro db; rfl
  | cons p ps ih =>
    intro db
    simp only [List.foldl_cons]
    rw [ih]
    rfl

/-- The column-metadata parameter rows of one payload have pairwise distinct
primary keys. -/
theorem columnMetaRows_nodup (p : WorksheetPayload) :
    ((columnMetaRows p).map Prod.fst).Nodup := by
  simp only [columnMetaRows, List.map_map]
  have : (Prod.fst ∘ fun i =>
      ((p.table_name, i), (p.df_columns.getD i [], p.original_headers.getD i [])))
      = fun i => (p.table_name, i) := rfl
  rw [this]
  exact (List.nodup_range _).map (fun a b h => by simpa using h)

/-- Payload batches for other table names never touch a given table's
column-metadata rows. -/
theorem cmFold_other_names :
    ∀ (qs : List WorksheetPayload) (cm : List ((List Char × Nat) × (List Char × List Char)))
      (name : List Char) (i : Nat),
      (∀ q ∈ qs, q.table_name ≠ name) →
      lookupAssoc (name, i)
          (qs.foldl (fun cm p => (columnMetaRows p).foldl
            (fun cm e => replaceAssoc e.1 e.2 cm) cm) cm)
        = lookupAssoc (name, i) cm ∧
      countKey (name, i)
          (qs.foldl (fun cm p => (columnMetaRows p).foldl
            (fun cm e => replaceAssoc e.1 e.2 cm) cm) cm)
        = countKey (name, i) cm := by
  intro qs
  induction qs with
  | nil => intro cm name i _; exact ⟨rfl, rfl⟩
  | cons q qs ih =>
    intro cm name i hne
    have hq : q.table_name ≠ name := hne q (List.mem_cons_self q qs)
    have hkeys : ∀ e ∈ columnMetaRows q, e.1 ≠ (name, i) := by
      intro e he hcontra
      obtain ⟨j, -, rfl⟩ := List.mem_map.mp he
      exact hq (congrArg Prod.fst hcontra)
    simp only [List.foldl_cons]
    obtain ⟨h1, h2⟩ := ih ((columnMetaRows q).foldl (fun cm e => replaceAssoc e.1 e.2 cm) cm)
      name i (fun q2 h2 => hne q2 (List.mem_cons_of_mem q h2))
    obtain ⟨h3, h4⟩ := foldRepl_other (name, i) (columnMetaRows q) cm hkeys
    exact ⟨h1.trans h3, h2.trans h4⟩

/-- Payload batches preserve key uniqueness of the column-metadata table. -/
theorem cmFold_nodup :
    ∀ (qs : List WorksheetPayload) (cm : List ((List Char × Nat) × (List Char × List Char))),
      (cm.map Prod.fst).Nodup →
      ((qs.foldl (fun cm p => (columnMetaRows p).foldl
          (fun cm e => replaceAssoc e.1 e.2 cm) cm) cm).map Prod.fst).Nodup := by
  intro qs
  induction qs with
  | nil => intro cm h; exact h
  | cons q qs ih =>
    intro cm h
    simp only [List.foldl_cons]
    exact ih _ (foldRepl_nodup (columnMetaRows q) cm h)

/-- `build_headers` produces one sanitized column name per raw header. -/
theorem buildHeadersGo_length :
    ∀ (cells : List Cell) (fallback : List Char) (idx : Nat)
      (counts : List Char → Nat) (hs : List (List Char)),
      buildHeadersGo fallback cells idx counts = some hs → hs.length = cells.length := by
  intro cells
  induction cells with
  | nil =>
    intro fallback idx counts hs h
    simp only [buildHeadersGo] at h
    cases h
    rfl
  | cons c rest ih =>
    intro fallback idx counts hs h
    simp only [buildHeadersGo] at h
    split at h
    · cases h
    · split at h
      · cases h
      · rename_i base hbase hs2 hrec
        cases h
        simp only [List.length_cons]
        rw [ih fallback (idx + 1) _ hs2 hrec]

/-- Claim C8: every payload the assembler produces has exactly one original
header per data column, and a failure-free writer run leaves, for each of
its column positions, exactly one `column_metadata` row, holding the
sanitized column name and the original header of that position (table names
distinct in the batch, as the open table-name-collision question assumes,
and the prior store key-unique). -/
theorem column_metadata_invariant :
    ∀ (rawRows : List (List Cell)) (maxScan : Nat) (stem sheet : List Char)
      (p : WorksheetPayload) (ps : List WorksheetPayload) (db : DB),
      worksheet_to_payload rawRows maxScan stem sheet = some p →
      p ∈ ps →
      (ps.map WorksheetPayload.table_name).Nodup →
      (db.columnMeta.map Prod.fst).Nodup →
      p.original_headers.length = p.df_columns.length ∧
      ∀ i, i < p.df_columns.length →
        countKey (p.table_name, i)
            ((write_payloads_to_db (fun _ => false) ps db).1.columnMeta) = 1 ∧
        lookupAssoc (p.table_name, i)
            ((write_payloads_to_db (fun _ => false) ps db).1.columnMeta)
          = some (p.df_columns.getD i [], p.original_headers.getD i []) := by
  intro rawRows maxScan stem sheet p ps db hpay hmem hnames hkeys
  obtain ⟨-, horig, hcols⟩ := worksheet_to_payload_inv rawRows maxScan stem sheet p hpay
  have hlen : p.original_headers.length = p.df_columns.length := by
    rw [horig, List.length_map,
      buildHeadersGo_length _ "column".data 0 (fun _ => 0) p.df_columns hcols]
  refine ⟨hlen, ?_⟩
  intro i hi
  obtain ⟨pre, post, rfl⟩ := List.mem_iff_append.mp hmem
  have hdb2 : (write_payloads_to_db (fun _ => false) (pre ++ p :: post) db).1.columnMeta
      = (pre ++ p :: post).foldl
          (fun cm p => (columnMetaRows p).foldl (fun cm e => replaceAssoc e.1 e.2 cm) cm)
          db.columnMeta := by
    rw [write_payloads_noFail, allOps_foldl]
    exact batch_columnMeta (pre ++ p :: post) db
  have hpost : ∀ q ∈ post, q.table_name ≠ p.table_name := by
    rw [List.map_append, List.map_cons] at hnames
    have hnd := (List.nodup_append.mp hnames).2.1
    have hnotin := (List.nodup_cons.mp hnd).1
    intro q hq hcontra
    exact hnotin (hcontra ▸ List.mem_map_of_mem WorksheetPayload.table_name hq)
  have hsplit : (pre ++ p :: post).foldl
      (fun cm p => (columnMetaRows p).foldl (fun cm e => replaceAssoc e.1 e.2 cm) cm)
      db.columnMeta
      = post.foldl
          (fun cm p => (columnMetaRows p).foldl (fun cm e => replaceAssoc e.1 e.2 cm) cm)
          ((columnMetaRows p).foldl (fun cm e => replaceAssoc e.1 e.2 cm)
            (pre.foldl
              (fun cm p => (columnMetaRows p).foldl (fun cm e => replaceAssoc e.1 e.2 cm) cm)
              db.columnMeta)) := by
    rw [List.foldl_append, List.foldl_cons]
  have hcm1 : ((pre.foldl
      (fun cm p => (columnMetaRows p).foldl (fun cm e => replaceAssoc e.1 e.2 cm) cm)
      db.columnMeta).map Prod.fst).Nodup := cmFold_nodup pre db.columnMeta hkeys
  have hrowmem : ((p.table_name, i), (p.df_columns.getD i [], p.original_headers.getD i []))
      ∈ columnMetaRows p :=
    List.mem_map.mpr ⟨i, List.mem_range.mpr hi, rfl⟩
  obtain ⟨hlook2, hcount2⟩ := foldRepl_writes (columnMetaRows p)
    (pre.foldl
      (fun cm p => (columnMetaRows p).foldl (fun cm e => replaceAssoc e.1 e.2 cm) cm)
      db.columnMeta)
    (p.table_name, i) (p.df_columns.getD i [], p.original_headers.getD i [])
    hcm1 (columnMetaRows_nodup p) hrowmem
  obtain ⟨hlookF, hcountF⟩ := cmFold_other_names post
    ((columnMetaRows p).foldl (fun cm e => replaceAssoc e.1 e.2 cm)
      (pre.foldl
        (fun cm p => (columnMetaRows p).foldl (fun cm e => replaceAssoc e.1 e.2 cm) cm)
        db.columnMeta))
    p.table_name i hpost
  rw [hdb2, hsplit]
  exact ⟨hcountF.trans hcount2, hlookF.trans hlook2⟩

/-- Closed witness for `column_metadata_invariant`: after writing the payload
of the worksheet `[["a"], [1]]`, position 0 of table `f_s` has the sanitized
name and the original header `"a"`. -/
theorem column_metadata_invariant_spot :
    lookupAssoc ("f_s".data, 0)
        ((write_payloads_to_db (fun _ => false)
          [⟨"f_s".data, ["a".data], ["a".data], [[Cell.num 1]], "f".data, "s".data⟩]
          ⟨[], [], []⟩).1.columnMeta)
      = some ("a".data, "a".data) := by
  have h := (column_metadata_invariant [[Cell.str "a".data], [Cell.num 1]] 10
    "f".data "s".data
    ⟨"f_s".data, ["a".data], ["a".data], [[Cell.num 1]], "f".data, "s".data⟩
    [⟨"f_s".data, ["a".data], ["a".data], [[Cell.num 1]], "f".data, "s".data⟩]
    ⟨[], [], []⟩ (by decide) (List.mem_cons_self _ _) (by decide) (by decide)).2 0
    (by decide)
  exact h.2
